import Mathlib

/-!
Verification development for the Security-Tool-Box scanning core.

Shallow embedding of the Rust code in:
  - src/modules/port-scan/src/lib.rs   (parse_ports, scan_connect_with_limits,
    resolve_best_effort, retry/backoff arithmetic)
  - src/core/src/ratelimiter.rs        (RateLimiter::new interval computation)
  - src/modules/host-discovery/src/lib.rs (is_host_live, discover_hosts)
  - src/toolbox/src/main.rs            (budget clamping for the Scan command)

Machine integers are modelled as Nat with explicit bounds where overflow or
saturation matters.  Network I/O is modelled by oracles: a function giving the
outcome of each connect / resolution attempt.  Concurrency (semaphore budgets)
is modelled by an explicit small-step transition system.
-/

namespace SecToolBox

/-! ## Port-spec parsing (src/modules/port-scan/src/lib.rs, `parse_ports`)

Strings are handled as `List Char` (`String.data`).  Each helper mirrors the
Rust primitive it embeds:
  - `splitChar` embeds `str::split(',')`
  - `trimChars` embeds `str::trim` (ASCII whitespace; the Rust version trims
    Unicode whitespace, identical on the inputs of interest)
  - `splitOnceChar` embeds `str::split_once('-')` (split at first occurrence)
  - `parseU16` embeds `u16::from_str` (optional sign, decimal digits,
    range check against 65535)
-/

/-- Error kinds of Rust `core::num::ParseIntError` relevant to `u16::from_str`. -/
inductive IntErr where
  | empty
  | invalidDigit
  | posOverflow
deriving DecidableEq, Repr

/-- Errors produced by `parse_ports`: either a propagated `ParseIntError`
(`start.parse()?` / `end.parse()?` / `part.parse()?`) or one of the two
`anyhow!` errors, which carry the offending token text. -/
inductive ParseErr where
  | intErr (e : IntErr)
  | invalidRange (tok : String)
  | invalidPort (tok : String)
deriving DecidableEq, Repr

/-- Which token, if any, a `parse_ports` error names.  The `anyhow!` messages
"invalid port range: {part}" and "invalid port: {part}" embed the token; a
propagated `ParseIntError` does not mention it. -/
def namesToken : ParseErr → Option String
  | .intErr _ => none
  | .invalidRange t => some t
  | .invalidPort t => some t

/-- `str::split(',')`: split a character list at every separator occurrence.
`"a,,b"` yields `["a", "", "b"]` and `""` yields `[""]`, as in Rust. -/
def splitChar (sep : Char) : List Char → List (List Char)
  | [] => [[]]
  | c :: cs =>
    if c = sep then
      [] :: splitChar sep cs
    else
      match splitChar sep cs with
      | [] => [[c]]
      | t :: ts => (c :: t) :: ts

/-- ASCII whitespace test used by `trimChars`. -/
def isWs (c : Char) : Bool := c = ' ' ∨ c = '\t' ∨ c = '\n' ∨ c = '\r'

/-- `str::trim`: drop whitespace from both ends. -/
def trimChars (cs : List Char) : List Char :=
  ((cs.dropWhile isWs).reverse.dropWhile isWs).reverse

/-- `str::split_once('-')`: split at the first occurrence of the separator,
returning `none` when the separator does not occur. -/
def splitOnceChar (sep : Char) : List Char → Option (List Char × List Char)
  | [] => none
  | c :: cs =>
    if c = sep then some ([], cs)
    else match splitOnceChar sep cs with
      | none => none
      | some (a, b) => some (c :: a, b)

/-- Numeric value of a digit run (most significant first). -/
def digitsVal : List Char → Nat → Nat
  | [], acc => acc
  | c :: cs, acc => digitsVal cs (acc * 10 + (c.toNat - '0'.toNat))

/-- `u16::from_str`: an optional leading `+`/`-`, then at least one decimal
digit.  A negative number errors with `InvalidDigit` at its first nonzero
digit (so `-0` parses to `0`); a value above `u16::MAX = 65535` errors with
`PosOverflow`. -/
def parseU16 (cs : List Char) : Except IntErr Nat :=
  match cs with
  | [] => .error .empty
  | c :: rest =>
    let neg : Bool := c = '-'
    let ds : List Char := if c = '+' ∨ c = '-' then rest else c :: rest
    if ds = [] then .error .invalidDigit
    else if ¬ ds.all Char.isDigit then .error .invalidDigit
    else if neg then
      if ds.all (· = '0') then .ok 0 else .error .invalidDigit
    else
      let v := digitsVal ds 0
      if v > 65535 then .error .posOverflow else .ok v

/-- One iteration of the `parse_ports` loop body for a nonempty trimmed token:
the range branch (`split_once('-')` succeeded) or the single-port branch.
`ports.extend(s..=e)` is the ascending list `s, s+1, …, e`. -/
def parseTok (tok : List Char) : Except ParseErr (List Nat) :=
  match splitOnceChar '-' tok with
  | some (a, b) =>
    match parseU16 a with
    | .error e => .error (.intErr e)
    | .ok s =>
      match parseU16 b with
      | .error e => .error (.intErr e)
      | .ok e =>
        if s = 0 ∨ e = 0 ∨ s > e then .error (.invalidRange ⟨tok⟩)
        else .ok (List.range' s (e + 1 - s))
  | none =>
    match parseU16 tok with
    | .error e => .error (.intErr e)
    | .ok p =>
      if p = 0 then .error (.invalidPort ⟨tok⟩) else .ok [p]

/-- The `for part in spec.split(',')…` loop: first error wins, otherwise the
per-token port lists are concatenated in input order. -/
def collectToks : List (List Char) → Except ParseErr (List Nat)
  | [] => .ok []
  | t :: ts =>
    match parseTok t with
    | .error e => .error e
    | .ok ps =>
      match collectToks ts with
      | .error e => .error e
      | .ok rest => .ok (ps ++ rest)

/-- `Vec::dedup` on the tail of a list: drop elements equal to their
predecessor (`prev` is the last kept element). -/
def dedupTail (prev : Nat) : List Nat → List Nat
  | [] => []
  | b :: rest => if prev = b then dedupTail prev rest else b :: dedupTail b rest

/-- `Vec::dedup`: remove consecutive duplicates, keeping the first of each run. -/
def dedupConsec : List Nat → List Nat
  | [] => []
  | a :: rest => a :: dedupTail a rest

/-- `sort_unstable` on `Vec<u16>`: extensionally, sorting ascending.  Embedded
by `List.insertionSort (· ≤ ·)` — on `Nat`, every correct sort produces the
same list, and stability is meaningless for equal numbers. -/
def sortPorts (l : List Nat) : List Nat := l.insertionSort (· ≤ ·)

/-- `parse_ports` (src/modules/port-scan/src/lib.rs:16-37): split on commas,
trim, drop empty tokens, parse each token (errors propagate), then
`sort_unstable` + `dedup`. -/
def parse_ports (spec : String) : Except ParseErr (List Nat) :=
  match collectToks (((splitChar ',' spec.data).map trimChars).filter (· ≠ [])) with
  | .error e => .error e
  | .ok ports => .ok (dedupConsec (sortPorts ports))

/-! ### Sortedness of `parse_ports` output -/

theorem mem_dedupTail {x p : Nat} : ∀ {l : List Nat}, x ∈ dedupTail p l → x ∈ l
  | [], h => by simp [dedupTail] at h
  | b :: rest, h => by
    by_cases hpb : p = b
    · simp only [dedupTail, if_pos hpb] at h
      exact List.mem_cons_of_mem _ (mem_dedupTail h)
    · simp only [dedupTail, if_neg hpb] at h
      rcases List.mem_cons.1 h with h | h
      · exact h ▸ List.mem_cons_self _ _
      · exact List.mem_cons_of_mem _ (mem_dedupTail h)

theorem dedupTail_sorted : ∀ {l : List Nat} {prev : Nat},
    (prev :: l).Sorted (· ≤ ·) → (prev :: dedupTail prev l).Sorted (· < ·)
  | [], _, _ => by simp [dedupTail]
  | b :: rest, prev, h => by
    rw [List.sorted_cons] at h
    obtain ⟨hle, htail⟩ := h
    by_cases hpb : prev = b
    · simp only [dedupTail, if_pos hpb]
      have hrest : (prev :: rest).Sorted (· ≤ ·) := by
        rw [List.sorted_cons]
        exact ⟨fun x hx => hle x (List.mem_cons_of_mem _ hx), (List.sorted_cons.1 htail).2⟩
      exact dedupTail_sorted hrest
    · simp only [dedupTail, if_neg hpb]
      have hbrest := dedupTail_sorted htail
      rw [List.sorted_cons]
      refine ⟨fun x hx => ?_, hbrest⟩
      have hprevb : prev < b :=
        lt_of_le_of_ne (hle b (List.mem_cons_self _ _)) hpb
      rcases List.mem_cons.1 hx with hxb | hxd
      · exact hxb ▸ hprevb
      · exact hprevb.trans ((List.sorted_cons.1 hbrest).1 x hxd)

theorem dedupConsec_sorted {l : List Nat} (h : l.Sorted (· ≤ ·)) :
    (dedupConsec l).Sorted (· < ·) := by
  cases l with
  | nil => simp [dedupConsec]
  | cons a t => exact dedupTail_sorted h

/-- **C7.** For every input spec accepted by `parse_ports`, the returned port
list is strictly ascending with no duplicates, regardless of the order of
input tokens and regardless of overlap between ranges. -/
theorem parse_ports_strictly_ascending (s : String) (l : List Nat)
    (h : parse_ports s = .ok l) : l.Sorted (· < ·) ∧ l.Nodup := by
  unfold parse_ports at h
  rcases hc : collectToks (((splitChar ',' s.data).map trimChars).filter (· ≠ [])) with e | ports
  · rw [hc] at h; exact absurd h (by simp)
  · rw [hc] at h
    have hl : l = dedupConsec (sortPorts ports) := (Except.ok.inj h).symm
    have hsorted : (sortPorts ports).Sorted (· ≤ ·) := List.sorted_insertionSort _ _
    have hstrict : l.Sorted (· < ·) := hl ▸ dedupConsec_sorted hsorted
    exact ⟨hstrict, List.Pairwise.imp (fun hab => Nat.ne_of_lt hab) hstrict⟩

/-- Witness for C7 at the concrete spec `"5,1-3"`. -/
theorem parse_ports_strictly_ascending_witness :
    parse_ports "5,1-3" = .ok [1, 2, 3, 5] ∧
      List.Sorted (· < ·) [1, 2, 3, 5] ∧ [1, 2, 3, 5].Nodup :=
  ⟨rfl, parse_ports_strictly_ascending "5,1-3" [1, 2, 3, 5] rfl⟩

/-- **C8 (counterexample).** The claim says every out-of-bounds token is a hard
parse error *that names the offending token*.  The token `"70000"` (a value
outside 1–65535) is rejected through `part.parse::<u16>()?`, whose
`ParseIntError` does not carry the token text: the error names no token. -/
theorem parse_ports_overflow_error_nameless :
    parse_ports "70000" = .error (.intErr .posOverflow) ∧
      namesToken (.intErr .posOverflow) = none :=
  ⟨rfl, rfl⟩

/-- The token list `parse_ports` iterates over: split on commas, trim, drop
empty tokens.  Definitionally the list built inline in `parse_ports`. -/
def specToks (spec : String) : List (List Char) :=
  ((splitChar ',' spec.data).map trimChars).filter (· ≠ [])

/-- Single-port branch with value 0 (`p == 0` at lib.rs:28): the `anyhow!`
error names the token. -/
theorem parseTok_zero_port (tok : List Char)
    (hs : splitOnceChar '-' tok = none) (hp : parseU16 tok = .ok 0) :
    parseTok tok = .error (.invalidPort ⟨tok⟩) := by
  simp [parseTok, hs, hp]

/-- Range branch with a zero endpoint or inverted bounds (lib.rs:22): the
`anyhow!` error names the token. -/
theorem parseTok_invalid_range (tok a b : List Char) (s e : Nat)
    (hs : splitOnceChar '-' tok = some (a, b)) (ha : parseU16 a = .ok s)
    (hb : parseU16 b = .ok e) (hcond : s = 0 ∨ e = 0 ∨ e < s) :
    parseTok tok = .error (.invalidRange ⟨tok⟩) := by
  simp only [parseTok, hs, ha, hb]
  rw [if_pos (by omega : s = 0 ∨ e = 0 ∨ s > e)]

/-- An all-digits token with value above `u16::MAX` fails in
`u16::from_str` with `PosOverflow`. -/
theorem parseU16_overflow (ds : List Char) (hne : ds ≠ [])
    (hdig : ds.all Char.isDigit = true) (hv : 65535 < digitsVal ds 0) :
    parseU16 ds = .error .posOverflow := by
  cases ds with
  | nil => exact absurd rfl hne
  | cons c rest =>
    have hc : Char.isDigit c = true := by
      rw [List.all_cons, Bool.and_eq_true] at hdig
      exact hdig.1
    have hcp : ¬ (c = '+' ∨ c = '-') := by
      rintro (rfl | rfl) <;> exact absurd hc (by decide)
    have hnegc : ¬ c = '-' := fun hcm => hcp (Or.inr hcm)
    simp only [parseU16, if_neg hcp]
    rw [if_neg (by simp : ¬ (c :: rest : List Char) = [])]
    rw [if_neg (by simp [hdig] : ¬ ¬ ((c :: rest : List Char).all Char.isDigit = true))]
    rw [if_neg (by simp [hnegc] : ¬ (decide (c = Char.ofNat 45) = true))]
    rw [if_pos hv]

/-- Single-port branch whose `u16` parse fails (`part.parse()?` at
lib.rs:27): the propagated `ParseIntError` names no token. -/
theorem parseTok_int_error_plain (tok : List Char) (ie : IntErr)
    (hs : splitOnceChar '-' tok = none) (hp : parseU16 tok = .error ie) :
    parseTok tok = .error (.intErr ie) := by
  simp [parseTok, hs, hp]

/-- Range branch with a failing endpoint parse (`start.parse()?` /
`end.parse()?` at lib.rs:20-21): the propagated `ParseIntError` names no
token. -/
theorem parseTok_int_error_range (tok a b : List Char) (ie : IntErr)
    (hs : splitOnceChar '-' tok = some (a, b))
    (h : parseU16 a = .error ie ∨ ∃ s, parseU16 a = .ok s ∧ parseU16 b = .error ie) :
    parseTok tok = .error (.intErr ie) := by
  rcases h with ha | ⟨s, ha, hb⟩
  · simp [parseTok, hs, ha]
  · simp [parseTok, hs, ha, hb]

/-- First error wins: if every token before `tok` parses and `tok` errors,
the whole loop returns `tok`'s error (the `?` propagation in the `for` loop,
lib.rs:18-33). -/
theorem collectToks_error_append (pre : List (List Char)) (tok : List Char)
    (rest : List (List Char)) (e : ParseErr)
    (hpre : ∀ t ∈ pre, ∃ l, parseTok t = .ok l)
    (htok : parseTok tok = .error e) :
    collectToks (pre ++ tok :: rest) = .error e := by
  induction pre with
  | nil =>
    simp only [List.nil_append, collectToks]
    rw [htok]
  | cons t ts ih =>
    obtain ⟨l, hl⟩ := hpre t (List.mem_cons_self _ _)
    have ih' := ih (fun u hu => hpre u (List.mem_cons_of_mem _ hu))
    simp only [List.cons_append, collectToks, hl, List.append_eq, ih']

/-- A token error is a hard error of the whole parse. -/
theorem parse_ports_error_of_collect (spec : String) (e : ParseErr)
    (h : collectToks (specToks spec) = .error e) :
    parse_ports spec = .error e := by
  unfold parse_ports
  rw [show ((splitChar ',' spec.data).map trimChars).filter (· ≠ [])
    = specToks spec from rfl, h]

/-- **C8 (amended).** `parse_ports "22,80,443" = [22,80,443]` and
`parse_ports "1-3,5,3" = [1,2,3,5]`; for *every* token, port 0 (in either a
single-port token or a range endpoint) and inverted ranges are hard parse
errors naming the offending token (in particular `"0"` and `"10-5"` are
errors), while any value outside 1–65535 fails through the propagated
`ParseIntError` — a hard parse error whose message does not include the
token; token errors propagate first-error-wins to `parse_ports` itself. -/
theorem parse_ports_examples_and_errors :
    parse_ports "22,80,443" = .ok [22, 80, 443] ∧
    parse_ports "1-3,5,3" = .ok [1, 2, 3, 5] ∧
    parse_ports "0" = .error (.invalidPort "0") ∧
    parse_ports "10-5" = .error (.invalidRange "10-5") ∧
    (∀ tok : List Char, splitOnceChar '-' tok = none → parseU16 tok = .ok 0 →
      parseTok tok = .error (.invalidPort ⟨tok⟩) ∧
        namesToken (.invalidPort ⟨tok⟩) = some ⟨tok⟩) ∧
    (∀ tok a b s e, splitOnceChar '-' tok = some (a, b) → parseU16 a = .ok s →
      parseU16 b = .ok e → (s = 0 ∨ e = 0 ∨ e < s) →
      parseTok tok = .error (.invalidRange ⟨tok⟩) ∧
        namesToken (.invalidRange ⟨tok⟩) = some ⟨tok⟩) ∧
    (∀ ds : List Char, ds ≠ [] → ds.all Char.isDigit = true →
      65535 < digitsVal ds 0 → parseU16 ds = .error .posOverflow) ∧
    (∀ tok ie, splitOnceChar '-' tok = none → parseU16 tok = .error ie →
      parseTok tok = .error (.intErr ie) ∧ namesToken (.intErr ie) = none) ∧
    (∀ tok a b ie, splitOnceChar '-' tok = some (a, b) →
      (parseU16 a = .error ie ∨ ∃ s, parseU16 a = .ok s ∧ parseU16 b = .error ie) →
      parseTok tok = .error (.intErr ie) ∧ namesToken (.intErr ie) = none) ∧
    (∀ pre tok rest e, (∀ t ∈ pre, ∃ l, parseTok t = .ok l) →
      parseTok tok = .error e → collectToks (pre ++ tok :: rest) = .error e) ∧
    (∀ spec e, collectToks (specToks spec) = .error e →
      parse_ports spec = .error e) :=
  ⟨rfl, rfl, rfl, rfl,
    fun tok hs hp => ⟨parseTok_zero_port tok hs hp, rfl⟩,
    fun tok a b s e hs ha hb hc => ⟨parseTok_invalid_range tok a b s e hs ha hb hc, rfl⟩,
    parseU16_overflow,
    fun tok ie hs hp => ⟨parseTok_int_error_plain tok ie hs hp, rfl⟩,
    fun tok a b ie hs h => ⟨parseTok_int_error_range tok a b ie hs h, rfl⟩,
    collectToks_error_append,
    parse_ports_error_of_collect⟩

/-- Witness for C8's universal clauses at concrete tokens: port zero
(`"0"`), inverted range (`"10-5"`), out-of-range value both alone
(`"70000"`) and as a range endpoint (`"1-70000"`), and first-error-wins
propagation through `"5,0,7"`. -/
theorem parse_ports_examples_and_errors_witness :
    (parseTok "0".data = .error (.invalidPort "0") ∧
      namesToken (.invalidPort "0") = some "0") ∧
    (parseTok "10-5".data = .error (.invalidRange "10-5") ∧
      namesToken (.invalidRange "10-5") = some "10-5") ∧
    parseU16 "70000".data = .error .posOverflow ∧
    (parseTok "70000".data = .error (.intErr .posOverflow) ∧
      namesToken (.intErr .posOverflow) = none) ∧
    (parseTok "1-70000".data = .error (.intErr .posOverflow) ∧
      namesToken (.intErr .posOverflow) = none) ∧
    collectToks ("5".data :: "0".data :: "7".data :: []) =
      .error (.invalidPort "0") ∧
    parse_ports "5,0,7" = .error (.invalidPort "0") := by
  have T := parse_ports_examples_and_errors
  refine ⟨T.2.2.2.2.1 "0".data rfl rfl,
    T.2.2.2.2.2.1 "10-5".data "10".data "5".data 10 5 rfl rfl rfl
      (Or.inr (Or.inr (by norm_num))),
    T.2.2.2.2.2.2.1 "70000".data (by decide) rfl (by decide),
    T.2.2.2.2.2.2.2.1 "70000".data .posOverflow rfl rfl,
    T.2.2.2.2.2.2.2.2.1 "1-70000".data "1".data "70000".data .posOverflow rfl
      (Or.inr ⟨1, rfl, rfl⟩),
    T.2.2.2.2.2.2.2.2.2.1 ["5".data] "0".data ["7".data] (.invalidPort "0")
      (fun t ht => by
        rw [List.mem_singleton] at ht
        exact ht ▸ ⟨[5], rfl⟩)
      rfl,
    T.2.2.2.2.2.2.2.2.2.2 "5,0,7" (.invalidPort "0") rfl⟩

/-! ## Best-effort DNS resolution
(src/modules/port-scan/src/lib.rs:128-141, `resolve_best_effort`)

The OS resolver is modelled by an oracle: `oracle i = some ip` means the
`(host, 0).to_socket_addrs()` call of attempt `i` yields at least one address
whose IP renders as the string `ip` (`sock.ip().to_string()` of the first
address); `none` means the call errors or yields no address.  The function
also produces its event trace — which attempts run and where the
`std::thread::sleep(retry_delay)` calls happen. -/

/-- `u32::MAX`, the saturation point of `dns_retries.saturating_add(1)`. -/
def u32Max : Nat := 2 ^ 32 - 1

/-- Observable events of `resolve_best_effort`. -/
inductive REv where
  | attempt (i : Nat)
  | sleep
deriving DecidableEq, Repr

def isAttempt : REv → Bool
  | .attempt _ => true
  | .sleep => false

def countAttempts (tr : List REv) : Nat := (tr.filter isAttempt).length

def countSleeps (tr : List REv) : Nat := (tr.filter (fun e => !isAttempt e)).length

/-- The `for i in 0..attempts` loop of `resolve_best_effort`: `n` iterations
remain and `i` is the current index.  A successful resolution returns the IP
string at once; otherwise, when another iteration remains (`i + 1 < attempts`,
i.e. `0 < n`) and `retry_delay.as_millis() > 0`, the thread sleeps before the
next attempt.  Falling out of the loop returns the original `host`. -/
def resolveLoop (oracle : Nat → Option String) (host : String) (delayMs : Nat) :
    Nat → Nat → String × List REv
  | 0, _ => (host, [])
  | n + 1, i =>
    match oracle i with
    | some ip => (ip, [.attempt i])
    | none =>
      let rest := resolveLoop oracle host delayMs n (i + 1)
      (rest.1, .attempt i :: (if 0 < n ∧ 0 < delayMs then .sleep :: rest.2 else rest.2))

/-- `resolve_best_effort` (src/modules/port-scan/src/lib.rs:128-141).
`attempts = dns_retries.saturating_add(1)` on `u32`. -/
def resolve_best_effort (host : String) (dnsRetries delayMs : Nat)
    (oracle : Nat → Option String) : String × List REv :=
  resolveLoop oracle host delayMs (min (dnsRetries + 1) u32Max) 0

theorem countAttempts_attempt_cons (i : Nat) (tr : List REv) :
    countAttempts (.attempt i :: tr) = countAttempts tr + 1 := by
  simp [countAttempts, isAttempt]

theorem countAttempts_sleep_cons (tr : List REv) :
    countAttempts (.sleep :: tr) = countAttempts tr := by
  simp [countAttempts, isAttempt]

theorem countSleeps_attempt_cons (i : Nat) (tr : List REv) :
    countSleeps (.attempt i :: tr) = countSleeps tr := by
  simp [countSleeps, isAttempt]

theorem countSleeps_sleep_cons (tr : List REv) :
    countSleeps (.sleep :: tr) = countSleeps tr + 1 := by
  simp [countSleeps, isAttempt]

theorem resolveLoop_succ_some {oracle : Nat → Option String} {host : String}
    {d i : Nat} {ip : String} (horc : oracle i = some ip) (n : Nat) :
    resolveLoop oracle host d (n + 1) i = (ip, [.attempt i]) := by
  unfold resolveLoop
  rw [horc]

theorem resolveLoop_succ_none {oracle : Nat → Option String} {host : String}
    {d i : Nat} (horc : oracle i = none) (n : Nat) :
    resolveLoop oracle host d (n + 1) i =
      ((resolveLoop oracle host d n (i + 1)).1,
        .attempt i :: (if 0 < n ∧ 0 < d then
          .sleep :: (resolveLoop oracle host d n (i + 1)).2
          else (resolveLoop oracle host d n (i + 1)).2)) := by
  simp only [resolveLoop, horc]

theorem countAttempts_le_resolveLoop (oracle : Nat → Option String)
    (host : String) (d : Nat) :
    ∀ n i, countAttempts (resolveLoop oracle host d n i).2 ≤ n
  | 0, _ => by simp [resolveLoop, countAttempts]
  | n + 1, i => by
    have ih := countAttempts_le_resolveLoop oracle host d n (i + 1)
    cases horc : oracle i with
    | some ip =>
      rw [resolveLoop_succ_some horc]
      simp [countAttempts, isAttempt]
    | none =>
      rw [resolveLoop_succ_none horc]
      by_cases hc : 0 < n ∧ 0 < d
      · rw [if_pos hc, countAttempts_attempt_cons, countAttempts_sleep_cons]
        omega
      · rw [if_neg hc, countAttempts_attempt_cons]
        omega

theorem resolveLoop_allfail (oracle : Nat → Option String) (host : String)
    (d : Nat) (hd : 0 < d) :
    ∀ n i, (∀ j, j < n → oracle (i + j) = none) →
      (resolveLoop oracle host d n i).1 = host ∧
      countAttempts (resolveLoop oracle host d n i).2 = n ∧
      countSleeps (resolveLoop oracle host d n i).2 = n - 1 ∧
      (0 < n → (resolveLoop oracle host d n i).2.getLast? = some (.attempt (i + n - 1)))
  | 0, i, _ => by simp [resolveLoop, countAttempts, countSleeps]
  | n + 1, i, hall => by
    have h0 : oracle i = none := by simpa using hall 0 (Nat.succ_pos n)
    have hsh : ∀ j, j < n → oracle (i + 1 + j) = none := fun j hj => by
      have := hall (j + 1) (by omega)
      simpa [Nat.add_comm, Nat.add_assoc, Nat.add_left_comm] using this
    rw [resolveLoop_succ_none h0]
    cases n with
    | zero =>
      simp [resolveLoop, countAttempts, countSleeps, isAttempt]
    | succ m =>
      obtain ⟨ih1, ih2, ih3, ih4⟩ := resolveLoop_allfail oracle host d hd (m + 1) (i + 1) hsh
      have hcond : (0 < m + 1 ∧ 0 < d) := ⟨Nat.succ_pos m, hd⟩
      rw [if_pos hcond]
      have hlast := ih4 (Nat.succ_pos m)
      refine ⟨ih1, ?_, ?_, ?_⟩
      · rw [countAttempts_attempt_cons, countAttempts_sleep_cons]
        omega
      · rw [countSleeps_attempt_cons, countSleeps_sleep_cons]
        omega
      · intro _
        rw [List.getLast?_cons_cons]
        cases htr : (resolveLoop oracle host d (m + 1) (i + 1)).2 with
        | nil =>
          rw [htr] at ih2
          simp [countAttempts] at ih2
        | cons a tl =>
          rw [htr] at hlast
          rw [List.getLast?_cons_cons, hlast]
          congr 2
          omega

theorem resolveLoop_success (oracle : Nat → Option String) (host : String)
    (d : Nat) :
    ∀ n i k ip, k < n → oracle (i + k) = some ip → (∀ j, j < k → oracle (i + j) = none) →
      (resolveLoop oracle host d n i).1 = ip ∧
      countAttempts (resolveLoop oracle host d n i).2 = k + 1
  | 0, _, k, _, hk, _, _ => absurd hk (Nat.not_lt_zero k)
  | n + 1, i, 0, ip, _, hok, _ => by
    simp only [Nat.add_zero] at hok
    rw [resolveLoop_succ_some hok]
    simp [countAttempts, isAttempt]
  | n + 1, i, k + 1, ip, hk, hok, hpre => by
    have h0 : oracle i = none := by simpa using hpre 0 (Nat.succ_pos k)
    have hok' : oracle (i + 1 + k) = some ip := by
      have heq : i + 1 + k = i + (k + 1) := by omega
      rw [heq]; exact hok
    have hpre' : ∀ j, j < k → oracle (i + 1 + j) = none := fun j hj => by
      have hj1 := hpre (j + 1) (by omega)
      have heq : i + 1 + j = i + (j + 1) := by omega
      rw [heq]; exact hj1
    have ih := resolveLoop_success oracle host d n (i + 1) k ip (by omega) hok' hpre'
    rw [resolveLoop_succ_none h0]
    by_cases hc : 0 < n ∧ 0 < d
    · rw [if_pos hc]
      exact ⟨ih.1, by rw [countAttempts_attempt_cons, countAttempts_sleep_cons]; omega⟩
    · rw [if_neg hc]
      exact ⟨ih.1, by rw [countAttempts_attempt_cons]; omega⟩

/-- **C5.** `resolve_best_effort(host, retries, delay)` never returns an error
(by construction its result is a plain string): it performs at most
`retries + 1` resolution attempts; as soon as an attempt yields an address it
returns that address's textual form, having made exactly `k + 1` attempts when
the first success is attempt `k`; it sleeps `delay` between consecutive failed
attempts but not after the last (the trace ends with an attempt, and the number
of sleeps is one less than the number of attempts); and when all `retries + 1`
attempts fail it returns the original input string unchanged.  The hypothesis
`retries + 1 ≤ u32Max` reflects the `u32` domain of `dns_retries`
(`saturating_add(1)` saturates only at `u32::MAX`). -/
theorem resolve_best_effort_spec (host : String) (retries delayMs : Nat)
    (oracle : Nat → Option String) (h32 : retries + 1 ≤ u32Max) (hd : 0 < delayMs) :
    countAttempts (resolve_best_effort host retries delayMs oracle).2 ≤ retries + 1 ∧
    ((∀ i, i < retries + 1 → oracle i = none) →
      (resolve_best_effort host retries delayMs oracle).1 = host ∧
      countAttempts (resolve_best_effort host retries delayMs oracle).2 = retries + 1 ∧
      countSleeps (resolve_best_effort host retries delayMs oracle).2 = retries ∧
      (resolve_best_effort host retries delayMs oracle).2.getLast?
        = some (.attempt retries)) ∧
    (∀ k ip, k < retries + 1 → oracle k = some ip → (∀ i, i < k → oracle i = none) →
      (resolve_best_effort host retries delayMs oracle).1 = ip ∧
      countAttempts (resolve_best_effort host retries delayMs oracle).2 = k + 1) := by
  have hmin : min (retries + 1) u32Max = retries + 1 := Nat.min_eq_left h32
  unfold resolve_best_effort
  rw [hmin]
  refine ⟨countAttempts_le_resolveLoop oracle host delayMs (retries + 1) 0, ?_, ?_⟩
  · intro hall
    have h := resolveLoop_allfail oracle host delayMs hd (retries + 1) 0
      (fun j hj => by simpa using hall j hj)
    obtain ⟨h1, h2, h3, h4⟩ := h
    exact ⟨h1, h2, by simpa using h3, by simpa using h4 (Nat.succ_pos retries)⟩
  · intro k ip hk hok hpre
    exact resolveLoop_success oracle host delayMs (retries + 1) 0 k ip hk
      (by simpa using hok) (fun j hj => by simpa using hpre j hj)

/-- Witness for C5: an unresolvable name with `retries = 2` and a 50 ms delay
returns the original string after exactly 3 attempts, with 2 sleeps and no
sleep after the last attempt. -/
theorem resolve_best_effort_spec_witness :
    countAttempts (resolve_best_effort "unresolvable.host" 2 50 (fun _ => none)).2 ≤ 3 ∧
    ((∀ i, i < 3 → (fun _ => none : Nat → Option String) i = none) →
      (resolve_best_effort "unresolvable.host" 2 50 (fun _ => none)).1 = "unresolvable.host" ∧
      countAttempts (resolve_best_effort "unresolvable.host" 2 50 (fun _ => none)).2 = 3 ∧
      countSleeps (resolve_best_effort "unresolvable.host" 2 50 (fun _ => none)).2 = 2 ∧
      (resolve_best_effort "unresolvable.host" 2 50 (fun _ => none)).2.getLast?
        = some (.attempt 2)) ∧
    (∀ k ip, k < 3 → (fun _ => none : Nat → Option String) k = some ip →
      (∀ i, i < k → (fun _ => none : Nat → Option String) i = none) →
      (resolve_best_effort "unresolvable.host" 2 50 (fun _ => none)).1 = ip ∧
      countAttempts (resolve_best_effort "unresolvable.host" 2 50 (fun _ => none)).2 = k + 1) :=
  resolve_best_effort_spec "unresolvable.host" 2 50 (fun _ => none)
    (by decide) (by decide)

/-! ## Retry backoff arithmetic (src/modules/port-scan/src/lib.rs:96-101)

After failed attempt `k` (1-indexed, `k ≤ retries`), the scanner sleeps
`exp + jitter` milliseconds where
  `base = retry_delay.as_millis() as u64`
  `exp = base.saturating_mul(1u64 << attempts.min(6))`
  `jitter = thread_rng().gen_range(0..(exp / 4 + 1))`.
Randomness is modelled by its support: `jitterPossible` holds exactly for the
values `gen_range(0..(exp / 4 + 1))` can produce. -/

/-- `u64::MAX`, the saturation point of `u64::saturating_mul`. -/
def u64Max : Nat := 2 ^ 64 - 1

/-- `u64::saturating_mul`. -/
def satMul (a b : Nat) : Nat := min (a * b) u64Max

/-- The deterministic backoff component for failed attempt `k`:
`base.saturating_mul(1u64 << attempts.min(6))`. -/
def backoffExp (base k : Nat) : Nat := satMul base (2 ^ min k 6)

/-- The jitter values `gen_range(0..(exp / 4 + 1))` can draw: the integer
range `0 ..= exp / 4` (inclusive of `exp / 4`). -/
def jitterPossible (base k j : Nat) : Prop := j < backoffExp base k / 4 + 1

/-- The slept duration in milliseconds: `exp + jitter` computed in `u64`
(`Duration::from_millis(exp + jitter)`), which wraps modulo `2^64` in release
builds when the sum exceeds `u64::MAX` (debug builds panic on the overflow
instead; either way the unwrapped sum is not what is slept). -/
def backoffTotal (base k j : Nat) : Nat := (backoffExp base k + j) % 2 ^ 64

/-- **C4 (counterexample).** The claim says the jitter is drawn from the
half-open interval `[0, delay/4)`, so every total delay is strictly below
`exp + exp/4`.  With `base = 4` and `k = 1` we have `exp = 8` and `gen_range`
draws from `0..(8/4 + 1) = 0..3`, so jitter `2 = exp/4` is possible and the
total delay `10 = exp + exp/4` attains the bound the claim excludes. -/
theorem backoff_jitter_closed_upper_bound :
    jitterPossible 4 1 2 ∧
      ¬ backoffTotal 4 1 2 < backoffExp 4 1 + backoffExp 4 1 / 4 := by
  constructor
  · show 2 < backoffExp 4 1 / 4 + 1
    norm_num [backoffExp, satMul, u64Max]
  · show ¬ backoffTotal 4 1 2 < backoffExp 4 1 + backoffExp 4 1 / 4
    norm_num [backoffTotal, backoffExp, satMul, u64Max]

/-- **C4 (amended).** For every failed attempt `k` whose deterministic
component does not drive the `u64` sum `exp + jitter` past `u64::MAX`
(overflow needs `exp` above four fifths of `u64::MAX`, a `--retry-delay-ms`
of ~7 million years; past it the release-build addition wraps and debug
builds panic), the jitter is drawn from the closed integer range `[0, exp/4]`
(that is, `gen_range(0..(exp/4 + 1))`), so each attempt's total backoff lies
in `[base*2^min(k,6), base*2^min(k,6) + (base*2^min(k,6))/4]` — closed at
the upper end — and the deterministic component
`base.saturating_mul(2^min(k,6))` is non-decreasing in `k`. -/
theorem backoff_total_bounds (base k k' j : Nat)
    (hj : jitterPossible base k j)
    (hnof : backoffExp base k + backoffExp base k / 4 < 2 ^ 64) (hk : k ≤ k') :
    backoffExp base k ≤ backoffTotal base k j ∧
    backoffTotal base k j ≤ backoffExp base k + backoffExp base k / 4 ∧
    backoffExp base k ≤ backoffExp base k' := by
  have hj' : j ≤ backoffExp base k / 4 := Nat.lt_succ_iff.mp hj
  have htot : backoffTotal base k j = backoffExp base k + j :=
    Nat.mod_eq_of_lt (by omega)
  refine ⟨by omega, by omega, ?_⟩
  have hpow : 2 ^ min k 6 ≤ 2 ^ min k' 6 :=
    Nat.pow_le_pow_right (by norm_num) (min_le_min hk le_rfl)
  exact min_le_min (Nat.mul_le_mul_left base hpow) le_rfl

/-- Witness for C4's amended bounds at `base = 4`, `k = 1`, `k' = 3`,
`j = 2`. -/
theorem backoff_total_bounds_witness :
    jitterPossible 4 1 2 ∧
      backoffExp 4 1 + backoffExp 4 1 / 4 < 2 ^ 64 ∧ 1 ≤ 3 ∧
      (backoffExp 4 1 ≤ backoffTotal 4 1 2 ∧
       backoffTotal 4 1 2 ≤ backoffExp 4 1 + backoffExp 4 1 / 4 ∧
       backoffExp 4 1 ≤ backoffExp 4 3) :=
  ⟨by norm_num [jitterPossible, backoffExp, satMul, u64Max],
    by norm_num [backoffExp, satMul, u64Max], by norm_num,
    backoff_total_bounds 4 1 3 2
      (by norm_num [jitterPossible, backoffExp, satMul, u64Max])
      (by norm_num [backoffExp, satMul, u64Max]) (by norm_num)⟩

/-! ## RateLimiter replenishment interval (src/core/src/ratelimiter.rs:13-27)

`RateLimiter::new` computes
  `let interval_ms = (1000u32 / tokens_per_sec.max(1)) as u64;`
and spawns a background task ticking every `interval_ms` milliseconds
(`MissedTickBehavior::Delay`, so missed intervals are not replayed), adding
one permit per tick. -/

/-- The code's interval computation: `1000u32 / tokens_per_sec.max(1)`. -/
def rateLimiterIntervalMs (tokensPerSec : Nat) : Nat := 1000 / max tokensPerSec 1

/-- The claimed replenishment interval, `max(1, 1000/tokensPerSec)`, stated
for comparison with the code's computation. -/
def claimedIntervalMs (tokensPerSec : Nat) : Nat := max 1 (1000 / tokensPerSec)

/-- **C6.** At `tokens_per_sec = 2000` (any value above 1000) the code's
interval is `1000 / 2000 = 0` milliseconds, not the claimed
`max(1, 1000/2000) = 1`: the `.max(1)` guards only the divisor, not the
quotient.  `tokio::time::interval` panics on a zero period, so the spawned
replenishment task dies and no permit is ever added. -/
theorem rateLimiter_interval_zero_above_1000 :
    rateLimiterIntervalMs 2000 = 0 ∧ claimedIntervalMs 2000 = 1 ∧
      rateLimiterIntervalMs 2000 ≠ claimedIntervalMs 2000 := by
  refine ⟨?_, ?_, ?_⟩ <;> norm_num [rateLimiterIntervalMs, claimedIntervalMs]

/-! ## Connect scan (src/modules/port-scan/src/lib.rs:57-114,
`scan_connect_with_limits`)

Network behaviour is an oracle `oracle p i : Bool`: whether the `i`-th connect
attempt (0-indexed) against port `p` completes successfully within
`timeout_per_port`.  The spawned per-port task runs the retry loop
(lib.rs:90-102); each task sends its port into the `mpsc` channel iff it
opened; the receiver collects in task-completion order (`completion`, a
permutation of `ports`) and finally `sort_unstable`s.

Three ways the call does not return a list are modelled explicitly:
  - `panic`: `mpsc::channel::<u16>(ports.len())` (lib.rs:74) asserts a
    non-zero buffer capacity, so an empty `ports` slice panics before any
    task is spawned;
  - `hang`: when the caller configured a `RateLimiter` whose rate exceeds
    1000 tokens/sec, its replenishment task has died on tokio's zero-period
    `interval` panic (see `rateLimiterIntervalMs`), so every port task blocks
    forever in `q.acquire()` (lib.rs:88) before its first connect, the `tx`
    clones are never dropped, and `rx.recv()` (lib.rs:109) never completes;
  - `unboundedRetries`: at `retries = u32::MAX` the loop guard
    `attempts <= retries` is always true for the `u32` counter, so after
    `u32::MAX` failures the increment wraps (release; debug builds panic on
    the overflow) and a task whose port never accepts loops forever; the
    scan then has no bounded-attempt semantics (it returns only in the case
    that every port eventually accepts), and no theorem here relies on this
    branch. -/

inductive ScanOutcome where
  | panic
  | hang
  | unboundedRetries
  | done (openList : List Nat)
deriving DecidableEq, Repr

/-- Whether a configured `RateLimiter` starves its consumers: its
replenishment interval `1000u32 / rate.max(1)` is 0 (rate above 1000), so
the background task panics and `acquire()` never obtains a permit.  `none`
means no limiter was configured (`global_qps = None`). -/
def limiterStarved : Option Nat → Bool
  | none => false
  | some q => rateLimiterIntervalMs q == 0

/-- The `while attempts <= retries` retry loop (lib.rs:92-102) for one port,
in its bounded domain `retries < u32::MAX` (where the `u32` counter cannot
wrap): `n` is the number of loop iterations still permitted, `idx` the number
of connect attempts already made.  Returns (opened, total connect attempts).
The `retries = u32::MAX` boundary, where the loop exits only through a
successful connect, is not given a bounded semantics; `scan_connect_with_limits`
maps it to `ScanOutcome.unboundedRetries` instead of using this loop. -/
def connectLoop (oracle : Nat → Bool) : Nat → Nat → Bool × Nat
  | 0, idx => (false, idx)
  | n + 1, idx => if oracle idx then (true, idx + 1) else connectLoop oracle n (idx + 1)

/-- Whether the port task observes an open port (`opened` at lib.rs:103). -/
def portOpened (oracle : Nat → Bool) (retries : Nat) : Bool :=
  (connectLoop oracle (retries + 1) 0).1

/-- How many connect attempts the port task makes. -/
def connectsMade (oracle : Nat → Bool) (retries : Nat) : Nat :=
  (connectLoop oracle (retries + 1) 0).2

/-- `scan_connect_with_limits` (lib.rs:57-114).  `qps` is the rate of the
configured `RateLimiter`, if any.  DNS resolution and the semaphores do not
affect which value is produced (they gate timing only; modelled by
`taskTrace` and `BStep`), but a starved rate limiter blocks every task, so
it decides *whether* a value is produced and is part of this model. -/
def scan_connect_with_limits (ports : List Nat) (oracle : Nat → Nat → Bool)
    (qps : Option Nat) (retries : Nat) (completion : List Nat) : ScanOutcome :=
  if ports = [] then .panic
  else if limiterStarved qps then .hang
  else if u32Max ≤ retries then .unboundedRetries
  else .done (sortPorts (completion.filter (fun p => portOpened (oracle p) retries)))

/-- The open-port list as a function of the input port list alone. -/
def openPorts (ports : List Nat) (oracle : Nat → Nat → Bool) (retries : Nat) :
    List Nat :=
  sortPorts (ports.filter (fun p => portOpened (oracle p) retries))

theorem connectLoop_succ (oracle : Nat → Bool) (n idx : Nat) :
    connectLoop oracle (n + 1) idx =
      if oracle idx then (true, idx + 1) else connectLoop oracle n (idx + 1) := rfl

theorem connectLoop_fst_iff (oracle : Nat → Bool) :
    ∀ n idx, (connectLoop oracle n idx).1 = true ↔
      ∃ j, j < n ∧ oracle (idx + j) = true
  | 0, idx => by simp [connectLoop]
  | n + 1, idx => by
    rw [connectLoop_succ]
    by_cases h : oracle idx
    · rw [if_pos h]
      refine ⟨fun _ => ⟨0, Nat.succ_pos n, by simpa using h⟩, fun _ => rfl⟩
    · rw [if_neg h]
      rw [connectLoop_fst_iff oracle n (idx + 1)]
      constructor
      · rintro ⟨j, hj, ho⟩
        exact ⟨j + 1, by omega, by
          have heq : idx + (j + 1) = idx + 1 + j := by omega
          rw [heq]; exact ho⟩
      · rintro ⟨j, hj, ho⟩
        cases j with
        | zero => exact absurd (by simpa using ho) h
        | succ m =>
          exact ⟨m, by omega, by
            have heq : idx + 1 + m = idx + (m + 1) := by omega
            rw [heq]; exact ho⟩

theorem connectLoop_shortcircuit (oracle : Nat → Bool) :
    ∀ n idx k, k < n → oracle (idx + k) = true →
      (∀ j, j < k → oracle (idx + j) = false) →
      connectLoop oracle n idx = (true, idx + k + 1)
  | 0, _, k, hk, _, _ => absurd hk (Nat.not_lt_zero k)
  | n + 1, idx, 0, _, hok, _ => by
    simp only [Nat.add_zero] at hok
    simp [connectLoop, hok]
  | n + 1, idx, k + 1, hk, hok, hpre => by
    have h0 : oracle idx = false := by simpa using hpre 0 (Nat.succ_pos k)
    have hok' : oracle (idx + 1 + k) = true := by
      have heq : idx + 1 + k = idx + (k + 1) := by omega
      rw [heq]; exact hok
    have hpre' : ∀ j, j < k → oracle (idx + 1 + j) = false := fun j hj => by
      have hj1 := hpre (j + 1) (by omega)
      have heq : idx + 1 + j = idx + (j + 1) := by omega
      rw [heq]; exact hj1
    have ih := connectLoop_shortcircuit oracle n (idx + 1) k (by omega) hok' hpre'
    rw [connectLoop_succ, if_neg (by simp [h0] : ¬ oracle idx = true), ih]
    congr 1
    omega

theorem connectLoop_allfail (oracle : Nat → Bool) :
    ∀ n idx, (∀ j, j < n → oracle (idx + j) = false) →
      connectLoop oracle n idx = (false, idx + n)
  | 0, idx, _ => by simp [connectLoop]
  | n + 1, idx, hall => by
    have h0 : oracle idx = false := by simpa using hall 0 (Nat.succ_pos n)
    have hsh : ∀ j, j < n → oracle (idx + 1 + j) = false := fun j hj => by
      have hj1 := hall (j + 1) (by omega)
      have heq : idx + 1 + j = idx + (j + 1) := by omega
      rw [heq]; exact hj1
    have ih := connectLoop_allfail oracle n (idx + 1) hsh
    rw [connectLoop_succ, if_neg (by simp [h0] : ¬ oracle idx = true), ih]
    congr 1
    omega

/-- Sorting is invariant under permutation of its input. -/
theorem sortPorts_eq_of_perm {l₁ l₂ : List Nat} (h : l₁.Perm l₂) :
    sortPorts l₁ = sortPorts l₂ :=
  List.eq_of_perm_of_sorted
    ((List.perm_insertionSort _ l₁).trans (h.trans (List.perm_insertionSort _ l₂).symm))
    (List.sorted_insertionSort _ _) (List.sorted_insertionSort _ _)

/-- **C1 (counterexample).** The claim quantifies over every port list and
policy, but `scan_connect_with_limits` does not return the succeeded-port
list on three reachable inputs: the empty port list panics constructing
`mpsc::channel::<u16>(0)`; a configured rate limiter above 1000 tokens/sec
(`--qps 2000`) starves every task in `q.acquire()` and the call never
returns, even for a port that accepts immediately; and `--retries u32::MAX`
leaves the `u32` attempts counter wrapping with no bounded-attempt
semantics. -/
theorem scan_connect_not_total :
    scan_connect_with_limits [] (fun _ _ => true) none 3 [] = .panic ∧
    scan_connect_with_limits [22] (fun _ _ => true) (some 2000) 0 [22] = .hang ∧
    scan_connect_with_limits [22] (fun _ _ => false) none u32Max [22]
      = .unboundedRetries := by
  refine ⟨rfl, rfl, ?_⟩
  rw [scan_connect_with_limits, if_neg (by simp), if_neg (by simp [limiterStarved]),
    if_pos le_rfl]

/-- **C1 (amended).** For every target, *nonempty* port list, and policy
whose retry count is below `u32::MAX` and whose rate limiter, if configured,
has rate at most 1000 tokens/sec, `scan_connect_with_limits` returns exactly
the ports for which some connect attempt succeeded within the per-attempt
timeout: a port that succeeds on attempt `k` (with all earlier attempts
failing) is included after exactly `k + 1` connects, short-circuiting its
remaining retries; a port whose `retries + 1` attempts all fail is excluded
after exactly `retries + 1` connects; and the returned list is sorted
ascending regardless of the order in which the concurrent port tasks
complete. -/
theorem scan_connect_with_limits_spec (ports : List Nat)
    (oracle : Nat → Nat → Bool) (qps : Option Nat) (retries : Nat)
    (completion : List Nat) (hne : ports ≠ [])
    (hq : limiterStarved qps = false) (hr : retries < u32Max)
    (hperm : completion.Perm ports) :
    scan_connect_with_limits ports oracle qps retries completion
      = .done (openPorts ports oracle retries) ∧
    (∀ p, p ∈ openPorts ports oracle retries ↔
      p ∈ ports ∧ ∃ i, i ≤ retries ∧ oracle p i = true) ∧
    (openPorts ports oracle retries).Sorted (· ≤ ·) ∧
    (∀ p k, k ≤ retries → oracle p k = true → (∀ j, j < k → oracle p j = false) →
      connectsMade (oracle p) retries = k + 1) ∧
    (∀ p, (∀ i, i ≤ retries → oracle p i = false) →
      portOpened (oracle p) retries = false ∧
      connectsMade (oracle p) retries = retries + 1) := by
  refine ⟨?_, ?_, List.sorted_insertionSort _ _, ?_, ?_⟩
  · rw [scan_connect_with_limits, if_neg hne, if_neg (by simp [hq]),
      if_neg (by omega), openPorts]
    exact congrArg ScanOutcome.done (sortPorts_eq_of_perm (hperm.filter _))
  · intro p
    rw [openPorts, sortPorts]
    rw [(List.perm_insertionSort _ _).mem_iff, List.mem_filter]
    rw [portOpened, connectLoop_fst_iff]
    constructor
    · rintro ⟨hp, ⟨j, hj, hoj⟩⟩
      exact ⟨hp, j, by omega, by simpa using hoj⟩
    · rintro ⟨hp, ⟨i, hi, hoi⟩⟩
      exact ⟨hp, ⟨i, by omega, by simpa using hoi⟩⟩
  · intro p k hk hok hpre
    rw [connectsMade, connectLoop_shortcircuit (oracle p) (retries + 1) 0 k
      (by omega) (by simpa using hok) (fun j hj => by simpa using hpre j hj)]
    simp
  · intro p hall
    have h := connectLoop_allfail (oracle p) (retries + 1) 0
      (fun j hj => by simpa using hall j (by omega))
    rw [portOpened, connectsMade, h]
    exact ⟨rfl, by simp⟩

/-- Witness for C1's amended statement: ports `[22, 80]` where 22 accepts on
its first attempt and 80 never accepts, with no rate limiter, one retry, and
tasks completing in the order `[80, 22]`: the result is `[22]`, sorted, with
one connect for 22 and `retries + 1 = 2` connects for 80. -/
theorem scan_connect_with_limits_spec_witness :
    [22, 80] ≠ ([] : List Nat) ∧ limiterStarved none = false ∧ 1 < u32Max ∧
    (scan_connect_with_limits [22, 80] (fun p _ => p == 22) none 1 [80, 22]
        = .done (openPorts [22, 80] (fun p _ => p == 22) 1) ∧
      (∀ p, p ∈ openPorts [22, 80] (fun p _ => p == 22) 1 ↔
        p ∈ [22, 80] ∧ ∃ i, i ≤ 1 ∧ (fun p _ => p == 22) p i = true) ∧
      (openPorts [22, 80] (fun p _ => p == 22) 1).Sorted (· ≤ ·) ∧
      (∀ p k, k ≤ 1 → (fun p _ => p == 22) p k = true →
        (∀ j, j < k → (fun p _ => p == 22) p j = false) →
        connectsMade ((fun p _ => p == 22) p) 1 = k + 1) ∧
      (∀ p, (∀ i, i ≤ 1 → (fun p _ => p == 22) p i = false) →
        portOpened ((fun p _ => p == 22) p) 1 = false ∧
        connectsMade ((fun p _ => p == 22) p) 1 = 1 + 1)) :=
  ⟨by simp, rfl, by decide,
    scan_connect_with_limits_spec [22, 80] (fun p _ => p == 22) none 1 [80, 22]
      (by simp) rfl (by decide) (List.Perm.swap 22 80 [])⟩

/-- **C10.** Evaluation at the failing input: with an empty ports slice the
scan panics (`mpsc::channel(0)`, modelled as `ScanOutcome.panic`) instead of
returning an empty sorted list; with a nonempty slice and no reachable port
it does return the empty list. -/
theorem scan_connect_totality_boundary :
    scan_connect_with_limits [] (fun _ _ => false) none 0 [] = .panic ∧
    scan_connect_with_limits [22] (fun _ _ => false) none 0 [22] = .done [] := by
  constructor <;> rfl

/-! ## Permit ordering inside one port task (lib.rs:82-104)

The spawned async block is straight-line code around the retry loop:
acquire the per-host semaphore permit (`host_sem.acquire_owned`), then the
global permit when a global semaphore is configured, then (when a rate
limiter is configured) a `RateLimiter` permit; then the connect/backoff loop;
then the channel send if the port opened; finally the scope ends and Rust
drops `_global_permit` and `_host_permit` (reverse declaration order) on
every exit path.  `taskTrace` is that event sequence. -/

inductive ScanEv where
  | acqHost
  | acqGlobal
  | acqRate
  | connect (i : Nat) (ok : Bool)
  | backoff (k : Nat)
  | send
  | relGlobal
  | relHost
deriving DecidableEq, Repr

/-- Events of the retry loop: attempt `idx` connects; on failure, when an
iteration remains, the task sleeps the backoff for 1-indexed attempt
`idx + 1` (lib.rs:96-101) before retrying. -/
def loopEvents (oracle : Nat → Bool) : Nat → Nat → List ScanEv
  | 0, _ => []
  | n + 1, idx =>
    if oracle idx then [.connect idx true]
    else .connect idx false ::
      (if 0 < n then .backoff (idx + 1) :: loopEvents oracle n (idx + 1)
        else loopEvents oracle n (idx + 1))

/-- The full event trace of one spawned port task (lib.rs:82-104). -/
def taskTrace (hasGlobal hasRate : Bool) (oracle : Nat → Bool) (retries : Nat) :
    List ScanEv :=
  [ScanEv.acqHost]
    ++ (if hasGlobal then [ScanEv.acqGlobal] else [])
    ++ (if hasRate then [ScanEv.acqRate] else [])
    ++ loopEvents oracle (retries + 1) 0
    ++ (if portOpened oracle retries then [ScanEv.send] else [])
    ++ (if hasGlobal then [ScanEv.relGlobal] else [])
    ++ [ScanEv.relHost]

/-- Connect attempts, backoff sleeps and the result send: the events that may
occur between permit acquisition and release. -/
def isBodyEv : ScanEv → Bool
  | .connect _ _ => true
  | .backoff _ => true
  | .send => true
  | _ => false

theorem loopEvents_body (oracle : Nat → Bool) :
    ∀ n idx, ∀ e ∈ loopEvents oracle n idx, isBodyEv e = true
  | 0, idx => by simp [loopEvents]
  | n + 1, idx => by
    intro e he
    by_cases h : oracle idx
    · simp only [loopEvents, if_pos h, List.mem_singleton] at he
      simp [he, isBodyEv]
    · simp only [loopEvents, if_neg h] at he
      rcases List.mem_cons.1 he with rfl | he'
      · rfl
      · by_cases hn : 0 < n
        · rw [if_pos hn] at he'
          rcases List.mem_cons.1 he' with rfl | he''
          · rfl
          · exact loopEvents_body oracle n (idx + 1) e he''
        · rw [if_neg hn] at he'
          exact loopEvents_body oracle n (idx + 1) e he'

theorem loopEvents_head (oracle : Nat → Bool) (n idx : Nat) :
    ∃ tl, loopEvents oracle (n + 1) idx = .connect idx (oracle idx) :: tl := by
  cases h : oracle idx with
  | true => exact ⟨[], by simp [loopEvents, h]⟩
  | false =>
    exact ⟨(if 0 < n then .backoff (idx + 1) :: loopEvents oracle n (idx + 1)
      else loopEvents oracle n (idx + 1)), by simp [loopEvents, h]⟩

/-- **C3.** Each port task acquires the per-host budget permit, then the
global budget permit (when configured), then a RateLimiter permit (when
configured), and only then performs connect attempts with the configured
timeout; both budget permits are released unconditionally at the end of the
task, after all attempt activity, for every oracle outcome (success, failure
or timeout on every attempt). -/
theorem task_permit_discipline (hasGlobal hasRate : Bool)
    (oracle : Nat → Bool) (retries : Nat) :
    ∃ body : List ScanEv,
      taskTrace hasGlobal hasRate oracle retries =
        [ScanEv.acqHost]
          ++ (if hasGlobal then [ScanEv.acqGlobal] else [])
          ++ (if hasRate then [ScanEv.acqRate] else [])
          ++ body
          ++ (if hasGlobal then [ScanEv.relGlobal] else [])
          ++ [ScanEv.relHost] ∧
      (∀ e ∈ body, isBodyEv e = true) ∧
      body.head? = some (ScanEv.connect 0 (oracle 0)) := by
  refine ⟨loopEvents oracle (retries + 1) 0
    ++ (if portOpened oracle retries then [ScanEv.send] else []), ?_, ?_, ?_⟩
  · simp [taskTrace, List.append_assoc]
  · intro e he
    rcases List.mem_append.1 he with he' | he'
    · exact loopEvents_body oracle (retries + 1) 0 e he'
    · rcases (by split at he' <;> simp_all : e = ScanEv.send) with rfl
      rfl
  · obtain ⟨tl, htl⟩ := loopEvents_head oracle retries 0
    rw [htl]
    rfl

/-! ## Host discovery (src/modules/host-discovery/src/lib.rs:28-62)

Addresses are opaque numeric identifiers.  `accepts a p` says whether a TCP
connect to port `p` of address `a` completes within the per-attempt timeout.
As in the connect scan, `completion` is the order in which the per-address
tasks deliver into the `mpsc` channel (a permutation of the input `ips`).

Two panics are modelled as `none`: `mpsc::channel(ips.len())` (lib.rs:44)
panics when `ips` is empty, and — one line later, still before any probe —
constructing the QPS ticker `interval(Duration::from_millis((1000u32 /
q.max(1)) as u64))` (lib.rs:46) panics on a zero period whenever
`qps > 1000`, so the whole sweep aborts and reports nothing. -/

/-- `is_host_live` (lib.rs:28-34): try the configured ports in list order,
one single attempt each; return at the first accepting port. -/
def is_host_live (accepts : Nat → Bool) : List Nat → Bool
  | [] => false
  | p :: ps => if accepts p then true else is_host_live accepts ps

/-- The ports `is_host_live` actually probes, in order. -/
def probedPorts (accepts : Nat → Bool) : List Nat → List Nat
  | [] => []
  | p :: ps => if accepts p then [p] else p :: probedPorts accepts ps

/-- The QPS ticker period at lib.rs:46: `1000u32 / q.max(1)` milliseconds
(the same mis-clamped expression as `rateLimiterIntervalMs`). -/
def discoverTickIntervalMs (q : Nat) : Nat := 1000 / max q 1

/-- Whether constructing the QPS ticker panics: a configured `qps` above
1000 yields a zero period, on which `tokio::time::interval` panics.  `none`
means no pacing was requested (`qps = None` after the CLI maps 0 to `None`). -/
def tickerPanics : Option Nat → Bool
  | none => false
  | some q => discoverTickIntervalMs q == 0

/-- `discover_hosts` (lib.rs:37-62): each spawned task sends its address iff
`is_host_live`; the receiver collects in completion order.  `none` models
the two constructor panics noted above, in source order. -/
def discover_hosts (ips ports : List Nat) (accepts : Nat → Nat → Bool)
    (qps : Option Nat) (completion : List Nat) : Option (List Nat) :=
  if ips = [] then none
  else if tickerPanics qps then none
  else some (completion.filter (fun ip => is_host_live (accepts ip) ports))

theorem is_host_live_iff (accepts : Nat → Bool) :
    ∀ ports, is_host_live accepts ports = true ↔ ∃ p, p ∈ ports ∧ accepts p = true
  | [] => by simp [is_host_live]
  | p :: ps => by
    by_cases h : accepts p
    · rw [is_host_live, if_pos h]
      exact ⟨fun _ => ⟨p, List.mem_cons_self _ _, by simpa using h⟩, fun _ => rfl⟩
    · rw [is_host_live, if_neg h, is_host_live_iff accepts ps]
      constructor
      · rintro ⟨q, hq, ha⟩
        exact ⟨q, List.mem_cons_of_mem _ hq, ha⟩
      · rintro ⟨q, hq, ha⟩
        rcases List.mem_cons.1 hq with rfl | hq'
        · exact absurd ha (by simpa using h)
        · exact ⟨q, hq', ha⟩

theorem probedPorts_decomp (accepts : Nat → Bool) :
    ∀ ports, ∃ rest, ports = probedPorts accepts ports ++ rest
  | [] => ⟨[], rfl⟩
  | p :: ps => by
    by_cases h : accepts p
    · exact ⟨ps, by simp [probedPorts, h]⟩
    · obtain ⟨rest, hrest⟩ := probedPorts_decomp accepts ps
      exact ⟨rest, by simp only [probedPorts, if_neg h, List.cons_append]
                      exact congrArg _ hrest⟩

theorem probedPorts_live (accepts : Nat → Bool) :
    ∀ ports, is_host_live accepts ports = true →
      ∃ pre p, probedPorts accepts ports = pre ++ [p] ∧ accepts p = true ∧
        ∀ q ∈ pre, accepts q = false
  | [], h => by simp [is_host_live] at h
  | p :: ps, h => by
    by_cases hp : accepts p
    · exact ⟨[], p, by simp [probedPorts, hp], hp, by simp⟩
    · rw [is_host_live, if_neg hp] at h
      obtain ⟨pre, q, hpq, hq, hpre⟩ := probedPorts_live accepts ps h
      refine ⟨p :: pre, q, ?_, hq, ?_⟩
      · simp [probedPorts, hp, hpq]
      · intro x hx
        rcases List.mem_cons.1 hx with rfl | hx'
        · simpa using hp
        · exact hpre x hx'

theorem probedPorts_notlive (accepts : Nat → Bool) :
    ∀ ports, is_host_live accepts ports = false → probedPorts accepts ports = ports
  | [], _ => rfl
  | p :: ps, h => by
    by_cases hp : accepts p
    · rw [is_host_live, if_pos hp] at h
      exact absurd h (by simp)
    · rw [is_host_live, if_neg hp] at h
      rw [probedPorts, if_neg hp, probedPorts_notlive accepts ps h]

/-- **C9 (counterexample).** The claim says an address is reported live iff
some configured port accepts.  With QPS pacing above 1000 (`--qps 2000`, an
unvalidated `u32`), the zero-period ticker at lib.rs:46 panics inside
`discover_hosts` before any probe: address 7, whose every port accepts, is
never reported live. -/
theorem discover_hosts_qps_panic :
    discover_hosts [7] [2] (fun _ _ => true) (some 2000) [7] = none ∧
    is_host_live ((fun _ _ => true) 7) [2] = true ∧
    discoverTickIntervalMs 2000 = 0 := by
  exact ⟨rfl, rfl, rfl⟩

/-- **C9 (amended).** Whenever `discover_hosts` produces a result — which it
does exactly when the address list is nonempty and QPS pacing is either
unset or at most 1000 qps (above that the zero-period ticker panics before
any probe and nothing is reported) — an address is in it iff it is a
configured address and at least one configured port accepts a connection
within the per-attempt timeout; an address with no accepting port is
excluded.  Each address's ports are tried at most once each, in list order —
the probed ports form an in-order initial segment of the configured list —
with no retries: when the address is live the last probed port is the first
accepting one (all earlier probes failed), and when it is not live every
configured port was probed exactly once. -/
theorem discover_hosts_live_iff (ips ports : List Nat)
    (accepts : Nat → Nat → Bool) (qps : Option Nat) (completion : List Nat)
    (out : List Nat) (hperm : completion.Perm ips)
    (hout : discover_hosts ips ports accepts qps completion = some out) :
    (∀ a, a ∈ out ↔ a ∈ ips ∧ is_host_live (accepts a) ports = true) ∧
    (∀ a, is_host_live (accepts a) ports = true ↔
      ∃ p, p ∈ ports ∧ accepts a p = true) ∧
    (∀ a, ∃ rest, ports = probedPorts (accepts a) ports ++ rest) ∧
    (∀ a, is_host_live (accepts a) ports = true →
      ∃ pre p, probedPorts (accepts a) ports = pre ++ [p] ∧ accepts a p = true ∧
        ∀ q ∈ pre, accepts a q = false) ∧
    (∀ a, is_host_live (accepts a) ports = false →
      probedPorts (accepts a) ports = ports) ∧
    (ips ≠ [] ∧ tickerPanics qps = false ↔
      (discover_hosts ips ports accepts qps completion).isSome = true) := by
  have hne : ips ≠ [] := by
    intro hnil
    rw [discover_hosts, if_pos hnil] at hout
    exact absurd hout (by simp)
  have htick : tickerPanics qps = false := by
    by_contra htk
    rw [discover_hosts, if_neg hne, if_pos (by simpa using htk)] at hout
    exact absurd hout (by simp)
  rw [discover_hosts, if_neg hne, if_neg (by simp [htick])] at hout
  have hfil : out = completion.filter (fun ip => is_host_live (accepts ip) ports) :=
    (Option.some.inj hout).symm
  refine ⟨?_, fun a => is_host_live_iff (accepts a) ports,
    fun a => probedPorts_decomp (accepts a) ports,
    fun a => probedPorts_live (accepts a) ports,
    fun a => probedPorts_notlive (accepts a) ports, ?_⟩
  · intro a
    rw [hfil, List.mem_filter, hperm.mem_iff]
  · rw [discover_hosts, if_neg hne, if_neg (by simp [htick])]
    simp [hne, htick]

/-- Witness for C9: addresses `[7, 9]` and ports `[1, 2]` where only address 7
accepts (on port 2), no pacing, tasks completing in order `[9, 7]`: the
result is `[7]`. -/
theorem discover_hosts_live_iff_witness :
    discover_hosts [7, 9] [1, 2] (fun a p => a == 7 && p == 2) none [9, 7]
      = some [7] ∧
    ((∀ a, a ∈ [7] ↔ a ∈ [7, 9] ∧
        is_host_live ((fun a p => a == 7 && p == 2) a) [1, 2] = true) ∧
      (∀ a, is_host_live ((fun a p => a == 7 && p == 2) a) [1, 2] = true ↔
        ∃ p, p ∈ [1, 2] ∧ (fun a p => a == 7 && p == 2) a p = true) ∧
      (∀ a, ∃ rest,
        [1, 2] = probedPorts ((fun a p => a == 7 && p == 2) a) [1, 2] ++ rest) ∧
      (∀ a, is_host_live ((fun a p => a == 7 && p == 2) a) [1, 2] = true →
        ∃ pre p, probedPorts ((fun a p => a == 7 && p == 2) a) [1, 2] = pre ++ [p] ∧
          (fun a p => a == 7 && p == 2) a p = true ∧
          ∀ q ∈ pre, (fun a p => a == 7 && p == 2) a q = false) ∧
      (∀ a, is_host_live ((fun a p => a == 7 && p == 2) a) [1, 2] = false →
        probedPorts ((fun a p => a == 7 && p == 2) a) [1, 2] = [1, 2]) ∧
      ([7, 9] ≠ ([] : List Nat) ∧ tickerPanics none = false ↔
        (discover_hosts [7, 9] [1, 2] (fun a p => a == 7 && p == 2) none
          [9, 7]).isSome = true)) :=
  ⟨rfl, discover_hosts_live_iff [7, 9] [1, 2] (fun a p => a == 7 && p == 2)
    none [9, 7] [7] (List.Perm.swap 7 9 []) rfl⟩

/-! ## Concurrency budgets (lib.rs:73-87, main.rs:877-902)

Each spawned port task runs `host_sem.acquire_owned()` (per-host semaphore,
created with `per_host_concurrency.max(1)` permits, lib.rs:73), then — when a
global semaphore is configured — `global.acquire_owned()` (created with
`max_connections.unwrap_or(concurrency * host_concurrency).max(1)` permits,
main.rs:877-901); both permits are dropped when the task finishes.  This is a
small-step transition system: a task is waiting for its host permit, waiting
for the global permit (holding its host permit), running (holding both —
this phase covers the rate-limiter wait, the connect attempts and the backoff
sleeps), or done (both permits returned).  Any task may step at any time, so
reachable states cover every interleaving the tokio scheduler can produce. -/

inductive Phase where
  | waitHost
  | waitGlobal
  | running
  | done
deriving DecidableEq, Repr

/-- A scheduler state: each task's host id and phase, the global semaphore's
available permits, and each host semaphore's available permits. -/
structure BSt where
  tp : List (Nat × Phase)
  g : Nat
  hAvail : Nat → Nat

/-- Tasks currently holding both permits (an attempt in flight or about to
be). -/
def countRunning (tp : List (Nat × Phase)) : Nat :=
  (tp.filter (fun x => x.2 == Phase.running)).length

/-- Tasks of host `h` currently holding both permits. -/
def countRunningOn (tp : List (Nat × Phase)) (h : Nat) : Nat :=
  (tp.filter (fun x => x.1 == h && x.2 == Phase.running)).length

/-- Tasks of host `h` currently holding the host permit. -/
def countHolders (tp : List (Nat × Phase)) (h : Nat) : Nat :=
  (tp.filter (fun x =>
    x.1 == h && (x.2 == Phase.waitGlobal || x.2 == Phase.running))).length

/-- Decrement a host-semaphore counter. -/
def hDecr (f : Nat → Nat) (h : Nat) : Nat → Nat :=
  fun x => if x = h then f x - 1 else f x

/-- Increment a host-semaphore counter. -/
def hIncr (f : Nat → Nat) (h : Nat) : Nat → Nat :=
  fun x => if x = h then f x + 1 else f x

/-- One scheduler step.  `hasGlobal` says whether a global semaphore is
configured (`Some(global)` at the call site).  Semaphore `acquire` only
proceeds when a permit is available; `drop` always returns the permit. -/
inductive BStep (hasGlobal : Bool) : BSt → BSt → Prop
  | acqHost (l r : List (Nat × Phase)) (h g : Nat) (hA : Nat → Nat)
      (hpos : 0 < hA h) :
      BStep hasGlobal ⟨l ++ (h, .waitHost) :: r, g, hA⟩
        ⟨l ++ (h, .waitGlobal) :: r, g, hDecr hA h⟩
  | acqGlobal (l r : List (Nat × Phase)) (h g : Nat) (hA : Nat → Nat)
      (hpos : hasGlobal = true → 0 < g) :
      BStep hasGlobal ⟨l ++ (h, .waitGlobal) :: r, g, hA⟩
        ⟨l ++ (h, .running) :: r, if hasGlobal then g - 1 else g, hA⟩
  | finish (l r : List (Nat × Phase)) (h g : Nat) (hA : Nat → Nat) :
      BStep hasGlobal ⟨l ++ (h, .running) :: r, g, hA⟩
        ⟨l ++ (h, .done) :: r, if hasGlobal then g + 1 else g, hIncr hA h⟩

/-- Initial state: every task waits for its host permit; both semaphores are
at their created capacities. -/
def initSt (tasks : List Nat) (gCap : Nat) (hCap : Nat → Nat) : BSt :=
  ⟨tasks.map (fun h => (h, Phase.waitHost)), gCap, hCap⟩

/-- States the scheduler can reach from the start of a run. -/
def Reachable (hasGlobal : Bool) (tasks : List Nat) (gCap : Nat)
    (hCap : Nat → Nat) : BSt → Prop :=
  Relation.ReflTransGen (BStep hasGlobal) (initSt tasks gCap hCap)

/-- Permit conservation: available permits plus held permits equal the
created capacity, globally and per host. -/
def BInv (hasGlobal : Bool) (gCap : Nat) (hCap : Nat → Nat) (s : BSt) : Prop :=
  (hasGlobal = true → s.g + countRunning s.tp = gCap) ∧
  (∀ h, s.hAvail h + countHolders s.tp h = hCap h)

theorem countRunning_append (a b : List (Nat × Phase)) :
    countRunning (a ++ b) = countRunning a + countRunning b := by
  simp [countRunning, List.filter_append]

theorem countHolders_append (a b : List (Nat × Phase)) (h : Nat) :
    countHolders (a ++ b) h = countHolders a h + countHolders b h := by
  simp [countHolders, List.filter_append]

theorem countRunningOn_append (a b : List (Nat × Phase)) (h : Nat) :
    countRunningOn (a ++ b) h = countRunningOn a h + countRunningOn b h := by
  simp [countRunningOn, List.filter_append]

theorem countRunningOn_le_countHolders (h : Nat) :
    ∀ tp : List (Nat × Phase), countRunningOn tp h ≤ countHolders tp h
  | [] => le_rfl
  | x :: tp => by
    have ih := countRunningOn_le_countHolders h tp
    by_cases hx : (x.1 == h && x.2 == Phase.running) = true
    · have hx' : (x.1 == h && (x.2 == Phase.waitGlobal || x.2 == Phase.running))
          = true := by
        rw [Bool.and_eq_true] at hx
        rw [Bool.and_eq_true, Bool.or_eq_true]
        exact ⟨hx.1, Or.inr hx.2⟩
      simp [countRunningOn, countHolders, List.filter_cons, hx, hx'] at ih ⊢
      simpa [countRunningOn, countHolders] using ih
    · by_cases hx' : (x.1 == h && (x.2 == Phase.waitGlobal || x.2 == Phase.running))
          = true
      · simp [countRunningOn, countHolders, List.filter_cons, hx, hx']
        calc countRunningOn tp h ≤ countHolders tp h := ih
          _ ≤ countHolders tp h + 1 := Nat.le_succ _
      · simp [countRunningOn, countHolders, List.filter_cons, hx, hx']
        exact ih

theorem binv_init (hasGlobal : Bool) (tasks : List Nat) (gCap : Nat)
    (hCap : Nat → Nat) : BInv hasGlobal gCap hCap (initSt tasks gCap hCap) := by
  constructor
  · intro
    have hcr : countRunning (tasks.map (fun h => (h, Phase.waitHost))) = 0 := by
      simp [countRunning, List.filter_eq_nil_iff]
    simp [initSt, hcr]
  · intro h
    have hch : countHolders (tasks.map (fun x => (x, Phase.waitHost))) h = 0 := by
      simp [countHolders, List.filter_eq_nil_iff]
    simp [initSt, hch]

theorem binv_step (hasGlobal : Bool) (gCap : Nat) (hCap : Nat → Nat)
    {s s' : BSt} (hstep : BStep hasGlobal s s') (hinv : BInv hasGlobal gCap hCap s) :
    BInv hasGlobal gCap hCap s' := by
  obtain ⟨hg, hh⟩ := hinv
  cases hstep with
  | acqHost l r h g hA hpos =>
    constructor
    · intro htrue
      have hgx := hg htrue
      simp only [countRunning, List.filter_append, List.filter_cons,
        List.length_append] at hgx ⊢
      simpa using hgx
    · intro h'
      have hhx := hh h'
      by_cases heq : h' = h
      · subst heq
        simp only [countHolders, List.filter_append, List.filter_cons,
          List.length_append] at hhx ⊢
        simp only [hDecr, if_pos rfl]
        simp at hhx ⊢
        omega
      · have hne : (h == h') = false := by
          simp [Ne.symm heq]
        simp only [countHolders, List.filter_append, List.filter_cons,
          List.length_append] at hhx ⊢
        simp only [hDecr, if_neg (fun hc : h' = h => heq hc)]
        simp [hne] at hhx ⊢
        omega
  | acqGlobal l r h g hA hpos =>
    constructor
    · intro htrue
      have hgx := hg htrue
      have hgpos := hpos htrue
      simp only [countRunning, List.filter_append, List.filter_cons,
        List.length_append, htrue, if_true] at hgx ⊢
      simp at hgx ⊢
      omega
    · intro h'
      have hhx := hh h'
      by_cases heq : h' = h
      · subst heq
        simp only [countHolders, List.filter_append, List.filter_cons,
          List.length_append] at hhx ⊢
        simp at hhx ⊢
        omega
      · have hne : (h == h') = false := by
          simp [Ne.symm heq]
        simp only [countHolders, List.filter_append, List.filter_cons,
          List.length_append] at hhx ⊢
        simp [hne] at hhx ⊢
        omega
  | finish l r h g hA =>
    constructor
    · intro htrue
      have hgx := hg htrue
      simp only [countRunning, List.filter_append, List.filter_cons,
        List.length_append, htrue, if_true] at hgx ⊢
      simp at hgx ⊢
      omega
    · intro h'
      have hhx := hh h'
      by_cases heq : h' = h
      · subst heq
        simp only [countHolders, List.filter_append, List.filter_cons,
          List.length_append] at hhx ⊢
        simp only [hIncr, if_pos rfl]
        simp at hhx ⊢
        omega
      · have hne : (h == h') = false := by
          simp [Ne.symm heq]
        simp only [countHolders, List.filter_append, List.filter_cons,
          List.length_append] at hhx ⊢
        simp only [hIncr, if_neg (fun hc : h' = h => heq hc)]
        simp [hne] at hhx ⊢
        omega

theorem binv_reachable (hasGlobal : Bool) (tasks : List Nat) (gCap : Nat)
    (hCap : Nat → Nat) {s : BSt}
    (hreach : Reachable hasGlobal tasks gCap hCap s) :
    BInv hasGlobal gCap hCap s := by
  induction hreach with
  | refl => exact binv_init hasGlobal tasks gCap hCap
  | tail _ hstep ih => exact binv_step hasGlobal gCap hCap hstep ih

/-- **C2 (counterexample).** The claim bounds in-flight attempts by the
*configured* budgets.  The code clamps both semaphore capacities with
`.max(1)`, so with `maxConnections` configured as 0 the global semaphore is
created with one permit and a state with one in-flight attempt — exceeding
the configured budget 0 — is reachable. -/
theorem budget_zero_exceeded :
    ∃ s : BSt, Reachable true [0] (max 0 1) (fun _ => max 0 1) s ∧
      ¬ countRunning s.tp ≤ 0 := by
  refine ⟨⟨[(0, Phase.running)], if true then 1 - 1 else 1, hDecr (fun _ => 1) 0⟩,
    ?_, by simp [countRunning]⟩
  have h1 : BStep true (initSt [0] (max 0 1) (fun _ => max 0 1))
      ⟨[] ++ (0, Phase.waitGlobal) :: [], 1, hDecr (fun _ => 1) 0⟩ := by
    have hstep := @BStep.acqHost true [] [] 0 1 (fun _ => 1) (by norm_num)
    simpa [initSt] using hstep
  have h2 : BStep true (⟨[] ++ (0, Phase.waitGlobal) :: [], 1, hDecr (fun _ => 1) 0⟩ : BSt)
      ⟨[] ++ (0, Phase.running) :: [], if true then 1 - 1 else 1, hDecr (fun _ => 1) 0⟩ :=
    BStep.acqGlobal [] [] 0 1 (hDecr (fun _ => 1) 0) (fun _ => by norm_num)
  exact Relation.ReflTransGen.tail (Relation.ReflTransGen.single h1) (by simpa using h2)

/-- **C2 (amended).** With budgets configured at least 1 (the code clamps
both capacities with `.max(1)`, so a configured budget of 0 still admits one
in-flight attempt), at no reachable scheduler state do in-flight connection
attempts across all hosts exceed the configured global budget
(`maxConnections`), nor do in-flight attempts against any single host exceed
that host's per-host concurrency budget. -/
theorem budgets_never_exceeded (hasGlobal : Bool) (tasks : List Nat)
    (maxConnections : Nat) (perHost : Nat → Nat) (s : BSt)
    (hreach : Reachable hasGlobal tasks (max maxConnections 1)
      (fun h => max (perHost h) 1) s)
    (hg : 1 ≤ maxConnections) :
    (hasGlobal = true → countRunning s.tp ≤ maxConnections) ∧
    (∀ h, 1 ≤ perHost h → countRunningOn s.tp h ≤ perHost h) := by
  obtain ⟨hginv, hhinv⟩ := binv_reachable _ _ _ _ hreach
  constructor
  · intro htrue
    have := hginv htrue
    have hcap : max maxConnections 1 = maxConnections := max_eq_left hg
    omega
  · intro h hph
    have hhold : s.hAvail h + countHolders s.tp h = max (perHost h) 1 := hhinv h
    have hle := countRunningOn_le_countHolders h s.tp
    have hcap : max (perHost h) 1 = perHost h := max_eq_left hph
    rw [hcap] at hhold
    omega

/-- Witness for C2's amended bound: two tasks on host 0, both budgets 1, at
the initial state (zero in flight). -/
theorem budgets_never_exceeded_witness :
    ((true = true →
        countRunning (initSt [0, 0] (max 1 1) (fun _ => max 1 1)).tp ≤ 1) ∧
      (∀ h, 1 ≤ 1 →
        countRunningOn (initSt [0, 0] (max 1 1) (fun _ => max 1 1)).tp h ≤ 1)) :=
  budgets_never_exceeded true [0, 0] 1 (fun _ => 1)
    (initSt [0, 0] (max 1 1) (fun _ => max 1 1))
    Relation.ReflTransGen.refl (by norm_num)

end SecToolBox
